import Mathlib

/-!
Verification of the `get_entity_commands` action and the `max_publish_file`
hook of the tk-core fragment.

Strings from the Python source are modelled as `List Char`.  The external
`tank` process (invoked through `execute_toolkit_command`) is modelled as a
stateful oracle: a function `Nat → CmdResult` giving the response to the
k-th invocation made by the program.  `CmdResult.err rc out` models
`SubprocessCalledProcessError` with `returncode = rc` and `output = out`
(raised by the process-invocation utility on a non-zero exit).
-/

namespace TkCore

/-- Lower-casing of a string, modelling Python `str.lower`. -/
def lower (s : List Char) : List Char := s.map Char.toLower

/-- Model of Python `str.splitlines`: worker.  `cur` is the text of the
current (partial) line; a line break is `\n`, `\r\n` or `\r`.  At the end of
input the pending line is emitted only if there is one (`"".splitlines()`
is `[]`, and a trailing line break produces no extra empty line). -/
def splitlinesGo (cur : List Char) : List Char → List (List Char)
  | [] => if cur = [] then [] else [cur]
  | c :: rest =>
    if c = '\n' then cur :: splitlinesGo [] rest
    else if c = '\r' then
      match rest with
      | [] => cur :: splitlinesGo [] []
      | c2 :: rest2 =>
        if c2 = '\n' then cur :: splitlinesGo [] rest2
        else cur :: splitlinesGo [] (c2 :: rest2)
    else splitlinesGo (cur ++ [c]) rest

/-- Model of Python `str.splitlines` (restricted to the `\n`, `\r\n`, `\r`
line breaks, the only ones occurring in the cache format). -/
def splitlines (s : List Char) : List (List Char) := splitlinesGo [] s

/-- Model of Python `str.split(sep)` for a one-character separator:
`"".split(sep) = [""]`, separators are not grouped, empty fields kept. -/
def splitOnChar (sep : Char) : List Char → List (List Char)
  | [] => [[]]
  | c :: rest =>
    if c = sep then [] :: splitOnChar sep rest
    else match splitOnChar sep rest with
      | [] => [[c]]
      | t :: ts => (c :: t) :: ts

/-- A command record parsed from the cache, as produced by
`_parse_cached_commands` (`{"name": ..., "title": ..., "icon": ...}`). -/
structure Command where
  name : List Char
  title : List Char
  icon : List Char
  deriving DecidableEq

/-- `TankError`, the single application-level error type.  The Python class
carries a message string. -/
structure TankError where
  msg : List Char
  deriving DecidableEq

/-- Message of the `TankError` raised by `_parse_cached_commands` on a line
with fewer than 5 tokens:
`"The cache is missing tokens on the line \"%s\".\nFull cache:\n%s" % (line, commands_data)`. -/
def missingTokensMsg (line commands_data : List Char) : List Char :=
  "The cache is missing tokens on the line \"".data ++ line
    ++ "\".\nFull cache:\n".data ++ commands_data

/-- Worker of `_parse_cached_commands`: the per-line loop.  The full raw
`commands_data` is carried along for the error message.  Mirrors the Python
loop: the first line whose `$`-split has fewer than 5 tokens raises, else
`tokens[0], tokens[1], tokens[4]` are assembled into a `Command`. -/
def parseCachedLines (commands_data : List Char) :
    List (List Char) → Except TankError (List Command)
  | [] => .ok []
  | line :: rest =>
    let tokens := splitOnChar '$' line
    if tokens.length < 5 then
      .error ⟨missingTokensMsg line commands_data⟩
    else
      match parseCachedLines commands_data rest with
      | .ok cmds =>
          .ok ({ name := tokens.getD 0 [], title := tokens.getD 1 [],
                 icon := tokens.getD 4 [] } :: cmds)
      | .error e => .error e

/-- Model of `_parse_cached_commands`: split the raw cache text into lines
and parse each line. -/
def parse_cached_commands (commands_data : List Char) :
    Except TankError (List Command) :=
  parseCachedLines commands_data (splitlines commands_data)

/-- The `Command` built from one well-formed cache line (tokens 0, 1, 4 of
its `$`-split). -/
def lineCommand (line : List Char) : Command :=
  let tokens := splitOnChar '$' line
  { name := tokens.getD 0 [], title := tokens.getD 1 [],
    icon := tokens.getD 4 [] }

/-- Model of `GetEntityCommandsAction._get_cache_name`.  The platform name
follows the shotgun cache conventions, then the whole file name is
lower-cased. -/
def get_cache_name (platform entity_type : List Char) : List Char :=
  let platform_name :=
    if platform = "darwin".data then "mac".data
    else if platform = "win32".data then "windows".data
    else if "linux".data.isPrefixOf platform then "linux".data
    else platform
  lower ("shotgun_".data ++ platform_name ++ "_".data ++ entity_type
          ++ "_detailed.txt".data)

/-- Model of `GetEntityCommandsAction._get_env_name`:
`"shotgun_%s.yml" % entity_type.lower()`. -/
def get_env_name (entity_type : List Char) : List Char :=
  "shotgun_".data ++ lower entity_type ++ ".yml".data

/-- The platform-name mapping in the words of the spec: macOS-family →
`mac`, Windows-family → `windows`, Linux-family (by prefix) → `linux`, any
other platform identifier passes through unchanged.  Used to state claim C8
against `get_cache_name`. -/
def spec_platform_name (platform : List Char) : List Char :=
  if platform = "darwin".data then "mac".data
  else if platform = "win32".data then "windows".data
  else if "linux".data.isPrefixOf platform then "linux".data
  else platform

/-- An entity, `(entity_type, entity_id)`. -/
abbrev Entity : Type := List Char × Int

/-- One invocation of the external toolkit command
(`execute_toolkit_command(pipeline_config_path, command, args)`). -/
structure Invocation where
  pcPath : List Char
  command : List Char
  args : List (List Char)
  deriving DecidableEq

/-- Result of one external invocation.  `ok output` is a successful run
returning the process output; `err returncode output` models the
`SubprocessCalledProcessError` that the invocation utility raises on a
non-zero exit, carrying the exit code and the captured output. -/
inductive CmdResult where
  | ok (output : List Char)
  | err (returncode : Nat) (output : List Char)
  deriving DecidableEq

/-- The external world: the response to the k-th invocation the program
makes.  The world is stateful (a cache rebuild changes what a later read
returns), so responses are indexed by invocation count, not by request. -/
abbrev World : Type := Nat → CmdResult

/-- `GetEntityCommandsAction._ERROR_CODE_CACHE_OUT_OF_DATE`. -/
def ERROR_CODE_CACHE_OUT_OF_DATE : Nat := 1

/-- `GetEntityCommandsAction._ERROR_CODE_CACHE_NOT_FOUND`. -/
def ERROR_CODE_CACHE_NOT_FOUND : Nat := 2

/-- Modelled from the spec: `SubprocessCalledProcessError.__str__` lives in
`tank.deploy.util`, which is not part of this source fragment.  The spec
(§9) says the error value carries the exit code and the captured output;
its rendering inside `"Details: %s"` is modelled as a fixed phrase naming
the exit code. -/
def subprocessErrStr (returncode : Nat) : List Char :=
  "subprocess exited with code ".data ++ (toString returncode).data

/-- The `"shotgun_get_actions"` invocation of `_load_cached_data`. -/
def getActionsInv (pcPath cache_name env_name : List Char) : Invocation :=
  ⟨pcPath, "shotgun_get_actions".data, [cache_name, env_name]⟩

/-- The new-convention `"shotgun_cache_actions"` invocation: entity type,
cache file name and a sample entity id rendered with `str()`. -/
def cacheActionsNewInv (pcPath entity_type cache_name : List Char)
    (entity_id : Int) : Invocation :=
  ⟨pcPath, "shotgun_cache_actions".data,
    [entity_type, cache_name, (toString entity_id).data]⟩

/-- The old-convention `"shotgun_cache_actions"` invocation: entity type
and cache file name only. -/
def cacheActionsOldInv (pcPath entity_type cache_name : List Char) :
    Invocation :=
  ⟨pcPath, "shotgun_cache_actions".data, [entity_type, cache_name]⟩

/-- Final step of `_load_cached_data`: re-read the cache after a rebuild.
`k` is the invocation counter, `tr` the trace so far. -/
def loadFinalRead (w : World) (k : Nat) (tr : List Invocation)
    (pcPath cache_name env_name : List Char) :
    Except TankError (List Char) × List Invocation × Nat :=
  let inv := getActionsInv pcPath cache_name env_name
  match w k with
  | .ok out => (.ok out, tr ++ [inv], k + 1)
  | .err rc out =>
      (.error ⟨"Failed to get the content of the updated cache.\nDetails: ".data
        ++ subprocessErrStr rc ++ "\nOutput: ".data ++ out⟩,
       tr ++ [inv], k + 1)

/-- Model of `GetEntityCommandsAction._load_cached_data`.  Returns the
result (cache text or `TankError`), the trace of external invocations made,
and the new invocation counter.  The Python `entities[0][1]` is modelled
with `headD` (the caller always passes a non-empty group). -/
def load_cached_data (w : World) (k : Nat)
    (platform pipeline_config_path entity_type : List Char)
    (entities : List Entity) :
    Except TankError (List Char) × List Invocation × Nat :=
  let cache_name := get_cache_name platform entity_type
  let env_name := get_env_name entity_type
  let inv1 := getActionsInv pipeline_config_path cache_name env_name
  match w k with
  | .ok out => (.ok out, [inv1], k + 1)
  | .err rc out =>
    if rc = ERROR_CODE_CACHE_OUT_OF_DATE ∨ rc = ERROR_CODE_CACHE_NOT_FOUND then
      -- cache is not up to date - update it, trying the new calling
      -- convention (with a sample entity id) before the old one
      let entity_id := (entities.headD ([], 0)).2
      let invNew := cacheActionsNewInv pipeline_config_path entity_type
        cache_name entity_id
      match w (k + 1) with
      | .ok _ =>
          loadFinalRead w (k + 2) [inv1, invNew] pipeline_config_path
            cache_name env_name
      | .err _ _ =>
        let invOld := cacheActionsOldInv pipeline_config_path entity_type
          cache_name
        match w (k + 2) with
        | .ok _ =>
            loadFinalRead w (k + 3) [inv1, invNew, invOld]
              pipeline_config_path cache_name env_name
        | .err rc2 out2 =>
            (.error ⟨"Failed to update the cache.\nDetails: ".data
              ++ subprocessErrStr rc2 ++ "\nOutput: ".data ++ out2⟩,
             [inv1, invNew, invOld], k + 3)
    else
      (.error ⟨"Error while trying to get the cache content.\nDetails: ".data
        ++ subprocessErrStr rc ++ "\nOutput: ".data ++ out⟩,
       [inv1], k + 1)

/-- Model of `itertools.groupby(entities, operator.itemgetter(0))` (with
each group turned into a list): coalesce contiguous runs of entities with
equal type into `(type, run)` pairs. -/
def groupRuns : List Entity → List (List Char × List Entity)
  | [] => []
  | e :: rest =>
    match groupRuns rest with
    | [] => [(e.1, [e])]
    | (k, g) :: tl =>
      if e.1 = k then (k, e :: g) :: tl else (e.1, [e]) :: (k, g) :: tl

/-- Python-`dict` assignment on an association list: replace the value of
an existing key in place, else append the new binding. -/
def dictSet (m : List (Entity × List Command)) (e : Entity)
    (v : List Command) : List (Entity × List Command) :=
  match m with
  | [] => [(e, v)]
  | (e', v') :: rest =>
    if e' = e then (e, v) :: rest else (e', v') :: dictSet rest e v

/-- Python-`dict` lookup on an association list. -/
def dictLookup (m : List (Entity × List Command)) (e : Entity) :
    Option (List Command) :=
  match m with
  | [] => none
  | (e', v) :: rest => if e' = e then some v else dictLookup rest e

/-- The fan-out loop `for entity in entities_of_type:
commands_per_entity[entity] = commands`. -/
def assignGroup (m : List (Entity × List Command)) (ents : List Entity)
    (v : List Command) : List (Entity × List Command) :=
  ents.foldl (fun m e => dictSet m e v) m

/-- The message logged by `run_noninteractive` when one entity-type group
fails: `"Failed to fetch the commands from the Pipeline Configuration at %s
for the entity type %s.\nDetails: %s"`. -/
def failLogMsg (pc_path entity_type : List Char) (e : TankError) :
    List Char :=
  "Failed to fetch the commands from the Pipeline Configuration at ".data
    ++ pc_path ++ " for the entity type ".data ++ entity_type
    ++ ".\nDetails: ".data ++ e.msg

/-- The per-group loop of `run_noninteractive`.  For each `(entity_type,
entities_of_type)` group: load the cache, parse it, fan the parsed commands
out to every entity of the group; a `TankError` from loading or parsing is
caught, a message is logged, and processing continues with the remaining
groups.  Returns the accumulated mapping, the trace of all external
invocations, the logged error messages, and the invocation counter. -/
def runGroups (w : World) (platform pc_path : List Char) :
    List (List Char × List Entity) → Nat → List (Entity × List Command) →
    List (Entity × List Command) × List Invocation × List (List Char) × Nat
  | [], k, acc => (acc, [], [], k)
  | (entity_type, ents) :: rest, k, acc =>
    let (res, tr, k') := load_cached_data w k platform pc_path entity_type ents
    match res with
    | .ok content =>
      match parse_cached_commands content with
      | .ok cmds =>
        let (m, tr2, lg, k2) := runGroups w platform pc_path rest k'
          (assignGroup acc ents cmds)
        (m, tr ++ tr2, lg, k2)
      | .error e =>
        let (m, tr2, lg, k2) := runGroups w platform pc_path rest k' acc
        (m, tr ++ tr2, failLogMsg pc_path entity_type e :: lg, k2)
    | .error e =>
      let (m, tr2, lg, k2) := runGroups w platform pc_path rest k' acc
      (m, tr ++ tr2, failLogMsg pc_path entity_type e :: lg, k2)

/-- Model of `GetEntityCommandsAction.run_noninteractive`: group the
entities by contiguous runs of equal type and process each group.  The
`platform` argument models `sys.platform` (read once, pure). -/
def run_noninteractive (w : World) (platform pc_path : List Char)
    (entities : List Entity) :
    List (Entity × List Command) × List Invocation × List (List Char) × Nat :=
  runGroups w platform pc_path (groupRuns entities) 0 []

/-- Outcome of one group's load: the parsed command list when both the load
and the parse succeed, else `none` (the caught `TankError` case). -/
def groupOutcome (res : Except TankError (List Char)) :
    Option (List Command) :=
  match res with
  | .error _ => none
  | .ok content =>
    match parse_cached_commands content with
    | .ok cmds => some cmds
    | .error _ => none

/-- Replay of the per-group outcomes: for each group in order, whether its
load-and-parse succeeded and with which command list. -/
def groupOutcomes (w : World) (platform pc_path : List Char) :
    List (List Char × List Entity) → Nat →
    List ((List Char × List Entity) × Option (List Command))
  | [], _ => []
  | g :: rest, k =>
    let (res, _, k') := load_cached_data w k platform pc_path g.1 g.2
    (g, groupOutcome res) :: groupOutcomes w platform pc_path rest k'

/-- Replay of the invocation traces of every group, in order. -/
def groupTraces (w : World) (platform pc_path : List Char) :
    List (List Char × List Entity) → Nat → List Invocation
  | [], _ => []
  | g :: rest, k =>
    let (_, tr, k') := load_cached_data w k platform pc_path g.1 g.2
    tr ++ groupTraces w platform pc_path rest k'

/-- One step of the replayed assignment fold: a successful group containing
`e` overrides the accumulator with its command list. -/
def assignStep (e : Entity) (acc : Option (List Command))
    (g : (List Char × List Entity) × Option (List Command)) :
    Option (List Command) :=
  match g.2 with
  | some v => if e ∈ g.1.2 then some v else acc
  | none => acc

/-- The command list that the run assigns to entity `e`: the outcome of the
last successful group containing `e` (later dict assignments win). -/
def assignOf
    (outs : List ((List Char × List Entity) × Option (List Command)))
    (e : Entity) : Option (List Command) :=
  outs.foldl (assignStep e) none

/-! Filesystem model for the `max_publish_file.py` hook.  A filesystem is a
finite association of paths to files; a file has a content and a permission
mode. -/

/-- A regular file: content plus permission mode bits. -/
structure FileRec where
  content : List Char
  mode : Nat
  deriving DecidableEq

/-- A filesystem: association list from paths to files. -/
abbrev FS : Type := List (List Char × FileRec)

/-- First-match lookup of a path. -/
def fsLookup : FS → List Char → Option FileRec
  | [], _ => none
  | (p, f) :: rest, q => if p = q then some f else fsLookup rest q

/-- Write a file at a path: replace an existing entry in place, else append. -/
def fsSet : FS → List Char → FileRec → FS
  | [], q, f => [(q, f)]
  | (p, g) :: rest, q, f =>
    if p = q then (q, f) :: rest else (p, g) :: fsSet rest q f

/-- Model of `shutil.copy(src, dst)` for regular-file arguments: fails when
src and dst are the same file (`SameFileError`) or when the source does not
exist; otherwise the destination receives the source's content and (via the
`copymode` part of `shutil.copy`) the source's permission mode. -/
def shutilCopy (fs : FS) (src dst : List Char) : Option FS :=
  if src = dst then none
  else
    match fsLookup fs src with
    | none => none
    | some f => some (fsSet fs dst f)

/-- Model of `os.chmod(path, mode)`: fails when the path does not exist,
else replaces the file's mode, leaving its content alone. -/
def osChmod (fs : FS) (path : List Char) (mode : Nat) : Option FS :=
  match fsLookup fs path with
  | none => none
  | some f => some (fsSet fs path ⟨f.content, mode⟩)

/-- Model of `MaxPubPublishFile.execute(source_path, target_path)`:
`shutil.copy(source_path, target_path)` then
`os.chmod(target_path, 0444)`. -/
def maxPubPublishFileExecute (fs : FS) (source_path target_path : List Char) :
    Option FS :=
  match shutilCopy fs source_path target_path with
  | none => none
  | some fs1 => osChmod fs1 target_path 0o444

/-! Concrete instances used by the correction theorems of claims C5, C6 and
C7.  Each claim has its own instance. -/

/-- C5 instance: entity list where the type `"T"` occurs in two separate
runs, with the same entity `("T", 1)` in both runs. -/
def c5Ents : List Entity := [("T".data, 1), ("U".data, 2), ("T".data, 1)]

/-- C5 instance: world where the reads for the first two groups succeed
with a well-formed cache line and the read for the third group fails with
exit code 3 (so the third group fails immediately). -/
def c5World : World := fun k =>
  if k ≤ 1 then .ok "a$b$c$d$e".data else .err 3 "boom".data

/-- C6 instance: two types, contiguous. -/
def c6Ents : List Entity := [("T".data, 1), ("U".data, 2)]

/-- C6 instance: world returning the same cache content to every read, so
both types parse to the same command list. -/
def c6World : World := fun _ => .ok "a$b$c$d$e".data

/-- C7 instance: the type `"T"` is scattered (two non-contiguous runs). -/
def c7Ents : List Entity := [("T".data, 1), ("U".data, 2), ("T".data, 3)]

/-- C7 instance: a stateful world that returns one content to the first
`"T"` run's read and a different content to the second one's. -/
def c7World : World := fun k =>
  if k ≤ 1 then .ok "a$b$c$d$e".data else .ok "x$y$z$w$v".data

/-- C3 witness instance: a world whose first response succeeds. -/
def c3World : World := fun _ => .ok "x".data

/-- C4 witness instance: first read fails with code 2 (cache not found),
the new-convention rebuild fails with code 7, the old-convention rebuild
fails with code 9 and output `"old"`. -/
def c4World : World := fun k =>
  match k with
  | 0 => .err 2 "o".data
  | 1 => .err 7 "n".data
  | 2 => .err 9 "old".data
  | _ => .ok "z".data

/-- C6 witness instance: world returning a distinct cache content to each
group's read. -/
def c6WitWorld : World := fun k =>
  if k = 0 then .ok "a$b$c$d$e".data else .ok "x$y$z$w$v".data

/-- C7 witness instance: entity list whose equal types are contiguous. -/
def c7WitEnts : List Entity := [("T".data, 1), ("T".data, 2), ("U".data, 3)]

/-- C7 witness instance: world succeeding on every read. -/
def c7WitWorld : World := fun _ => .ok "a$b$c$d$e".data

/-- C9 witness instance: a filesystem holding one file `a`. -/
def c9FS : FS := [("a".data, ⟨"hi".data, 0o644⟩)]

/-- C9 witness instance: the filesystem after `execute("a", "b")`. -/
def c9FS1 : FS :=
  [("a".data, ⟨"hi".data, 0o644⟩), ("b".data, ⟨"hi".data, 0o444⟩)]

/-! Lemmas about the parser. -/

theorem parseCachedLines_ok_of (d : List Char) (ls : List (List Char))
    (H : ∀ l ∈ ls, 5 ≤ (splitOnChar '$' l).length) :
    parseCachedLines d ls = .ok (ls.map lineCommand) := by
  induction ls with
  | nil => rfl
  | cons l rest ih =>
    have h5 : ¬ (splitOnChar '$' l).length < 5 := by
      have := H l (by simp)
      omega
    have hrest := ih (fun l' hl' => H l' (by simp [hl']))
    simp [parseCachedLines, h5, hrest, lineCommand]

theorem parseCachedLines_ok_then (d : List Char) (ls : List (List Char))
    (cmds : List Command) (h : parseCachedLines d ls = .ok cmds) :
    (∀ l ∈ ls, 5 ≤ (splitOnChar '$' l).length) ∧ cmds = ls.map lineCommand := by
  induction ls generalizing cmds with
  | nil =>
    simp only [parseCachedLines, Except.ok.injEq] at h
    simp [← h]
  | cons l rest ih =>
    simp only [parseCachedLines] at h
    by_cases h5 : (splitOnChar '$' l).length < 5
    · simp [h5] at h
    · rw [if_neg h5] at h
      cases hrec : parseCachedLines d rest with
      | ok cs =>
        rw [hrec] at h
        obtain ⟨hall, hcs⟩ := ih cs hrec
        simp only [Except.ok.injEq] at h
        constructor
        · intro l' hl'
          rcases List.mem_cons.mp hl' with h' | h'
          · subst h'; omega
          · exact hall l' h'
        · simp [← h, hcs, lineCommand]
      | error e => rw [hrec] at h; exact absurd h (by simp)

theorem parseCachedLines_ok_iff (d : List Char) (ls : List (List Char))
    (cmds : List Command) :
    parseCachedLines d ls = .ok cmds ↔
      (∀ l ∈ ls, 5 ≤ (splitOnChar '$' l).length) ∧ cmds = ls.map lineCommand := by
  constructor
  · exact parseCachedLines_ok_then d ls cmds
  · rintro ⟨h1, h2⟩
    rw [h2]
    exact parseCachedLines_ok_of d ls h1

theorem parseCachedLines_err (d : List Char) (ls : List (List Char))
    (H : ∃ l ∈ ls, (splitOnChar '$' l).length < 5) :
    ∃ bad ∈ ls, (splitOnChar '$' bad).length < 5
      ∧ parseCachedLines d ls = .error ⟨missingTokensMsg bad d⟩ := by
  induction ls with
  | nil => simp at H
  | cons l rest ih =>
    by_cases h5 : (splitOnChar '$' l).length < 5
    · exact ⟨l, by simp, h5, by simp [parseCachedLines, h5]⟩
    · have Hrest : ∃ l' ∈ rest, (splitOnChar '$' l').length < 5 := by
        obtain ⟨l', hl', hlen⟩ := H
        rcases List.mem_cons.mp hl' with h' | h'
        · subst h'; omega
        · exact ⟨l', h', hlen⟩
      obtain ⟨bad, hmem, hlen, herr⟩ := ih Hrest
      exact ⟨bad, by simp [hmem], hlen, by simp [parseCachedLines, h5, herr]⟩

/-! Trailing-newline behaviour of `splitlines`. -/

theorem splitlinesGo_nil (cur : List Char) :
    splitlinesGo cur [] = if cur = [] then [] else [cur] := by
  simp [splitlinesGo]

theorem splitlinesGo_lf (cur rest : List Char) :
    splitlinesGo cur ('\n' :: rest) = cur :: splitlinesGo [] rest := by
  cases rest with
  | nil => simp [splitlinesGo]
  | cons a r => simp [splitlinesGo]

theorem splitlinesGo_cr_lf (cur rest : List Char) :
    splitlinesGo cur ('\r' :: '\n' :: rest) = cur :: splitlinesGo [] rest := by
  have hrn : ¬ ('\r' : Char) = '\n' := by decide
  simp [splitlinesGo, hrn]

theorem splitlinesGo_cr_end (cur : List Char) :
    splitlinesGo cur ['\r'] = [cur] := by
  have hrn : ¬ ('\r' : Char) = '\n' := by decide
  simp [splitlinesGo, hrn]

theorem splitlinesGo_cr_other (cur : List Char) (c2 : Char)
    (rest : List Char) (h : c2 ≠ '\n') :
    splitlinesGo cur ('\r' :: c2 :: rest)
      = cur :: splitlinesGo [] (c2 :: rest) := by
  have hrn : ('\r' : Char) ≠ '\n' := by decide
  simp [splitlinesGo, hrn, h]

theorem splitlinesGo_other (cur : List Char) (c : Char) (rest : List Char)
    (h1 : c ≠ '\n') (h2 : c ≠ '\r') :
    splitlinesGo cur (c :: rest) = splitlinesGo (cur ++ [c]) rest := by
  cases rest with
  | nil => simp [splitlinesGo, h1, h2]
  | cons a r => simp [splitlinesGo, h1, h2]

theorem splitlinesGo_append_newline :
    ∀ (n : Nat) (l : List Char), l.length ≤ n → l ≠ [] →
      l.getLast? ≠ some '\n' → ∀ cur,
      splitlinesGo cur (l ++ ['\n']) = splitlinesGo cur l := by
  intro n
  induction n with
  | zero =>
    intro l hl hne
    cases l with
    | nil => exact absurd rfl hne
    | cons a l => simp at hl
  | succ n ih =>
    intro l hl hne hlast cur
    match l with
    | [c] =>
      have hc : c ≠ '\n' := by simpa using hlast
      by_cases hr : c = '\r'
      · subst hr
        rw [show (['\r'] ++ ['\n'] : List Char) = '\r' :: '\n' :: [] from rfl,
          splitlinesGo_cr_lf, splitlinesGo_cr_end, splitlinesGo_nil]
        simp
      · rw [show ([c] ++ ['\n'] : List Char) = c :: ['\n'] from rfl,
          splitlinesGo_other cur c ['\n'] hc hr, splitlinesGo_lf,
          splitlinesGo_other cur c [] hc hr, splitlinesGo_nil,
          splitlinesGo_nil]
        simp
    | c :: c2 :: rest =>
      have hlast2 : (c2 :: rest).getLast? ≠ some '\n' := by
        rwa [List.getLast?_cons_cons] at hlast
      have hlen2 : (c2 :: rest).length ≤ n := by
        simp only [List.length_cons] at hl ⊢
        omega
      by_cases hcn : c = '\n'
      · subst hcn
        rw [List.cons_append, splitlinesGo_lf, splitlinesGo_lf,
          ih (c2 :: rest) hlen2 (by simp) hlast2 []]
      · by_cases hcr : c = '\r'
        · subst hcr
          by_cases h2n : c2 = '\n'
          · subst h2n
            have hrne : rest ≠ [] := by
              intro h
              subst h
              simp at hlast
            have hlast3 : rest.getLast? ≠ some '\n' := by
              match rest, hrne with
              | r :: rs, _ =>
                rwa [List.getLast?_cons_cons, List.getLast?_cons_cons]
                  at hlast
            have hlen3 : rest.length ≤ n := by
              simp only [List.length_cons] at hl
              omega
            rw [List.cons_append, List.cons_append, splitlinesGo_cr_lf,
              splitlinesGo_cr_lf, ih rest hlen3 hrne hlast3 []]
          · rw [List.cons_append, List.cons_append,
              splitlinesGo_cr_other cur c2 (rest ++ ['\n']) h2n,
              splitlinesGo_cr_other cur c2 rest h2n, ← List.cons_append,
              ih (c2 :: rest) hlen2 (by simp) hlast2 []]
        · rw [List.cons_append, splitlinesGo_other cur c _ hcn hcr,
            splitlinesGo_other cur c _ hcn hcr,
            ih (c2 :: rest) hlen2 (by simp) hlast2 (cur ++ [c])]

theorem splitlines_append_newline (data : List Char) (h1 : data ≠ [])
    (h2 : data.getLast? ≠ some '\n') :
    splitlines (data ++ ['\n']) = splitlines data :=
  splitlinesGo_append_newline data.length data le_rfl h1 h2 []

/-! Claim theorems C1, C2, C10, C8. -/

/-- Claim C1: for every cache text whose lines each split on `$` into at
least 5 tokens, `_parse_cached_commands` succeeds and returns exactly one
command record per line, in line order, with `name`, `title` and `icon`
equal to tokens 0, 1 and 4 of the corresponding line (`lineCommand`). -/
theorem parse_wellformed_cache (commands_data : List Char)
    (H : ∀ line ∈ splitlines commands_data,
      5 ≤ (splitOnChar '$' line).length) :
    parse_cached_commands commands_data
        = .ok ((splitlines commands_data).map lineCommand)
    ∧ ((splitlines commands_data).map lineCommand).length
        = (splitlines commands_data).length
    ∧ ∀ (i : Nat) (hi : i < ((splitlines commands_data).map lineCommand).length)
        (hi' : i < (splitlines commands_data).length),
        ((splitlines commands_data).map lineCommand).get ⟨i, hi⟩
          = lineCommand ((splitlines commands_data).get ⟨i, hi'⟩) := by
  refine ⟨parseCachedLines_ok_of commands_data _ H, by simp, ?_⟩
  intro i hi hi'
  simp [List.get_eq_getElem]

/-- Witness for C1 at a concrete two-line cache. -/
theorem parse_wellformed_cache_witness :
    parse_cached_commands "n1$t1$x$y$i1\nn2$t2$x$y$i2".data
      = .ok ((splitlines "n1$t1$x$y$i1\nn2$t2$x$y$i2".data).map lineCommand) :=
  (parse_wellformed_cache "n1$t1$x$y$i1\nn2$t2$x$y$i2".data (by decide)).1

/-- Claim C2: for every cache text with at least one line splitting into
fewer than 5 tokens, `_parse_cached_commands` fails with a `TankError`
whose message names the offending line and embeds the full raw content
(`missingTokensMsg`), and no command list is returned (the result is
`.error`, not `.ok` of a partial list). -/
theorem parse_malformed_cache (commands_data : List Char)
    (H : ∃ line ∈ splitlines commands_data,
      (splitOnChar '$' line).length < 5) :
    ∃ bad ∈ splitlines commands_data,
      (splitOnChar '$' bad).length < 5
      ∧ parse_cached_commands commands_data
          = .error ⟨missingTokensMsg bad commands_data⟩ :=
  parseCachedLines_err commands_data (splitlines commands_data) H

/-- Witness for C2 at a concrete cache whose second line has 3 tokens. -/
theorem parse_malformed_cache_witness :
    ∃ bad ∈ splitlines "a$b$c$d$e\npublish$Publish File$icon.png".data,
      (splitOnChar '$' bad).length < 5
      ∧ parse_cached_commands "a$b$c$d$e\npublish$Publish File$icon.png".data
          = .error ⟨missingTokensMsg bad
              "a$b$c$d$e\npublish$Publish File$icon.png".data⟩ :=
  parse_malformed_cache "a$b$c$d$e\npublish$Publish File$icon.png".data
    (by decide)

/-- Claim C10: parsing the empty cache text succeeds with the empty command
list, and appending one trailing newline to a non-empty text that does not
already end in a newline leaves the line split unchanged, so it produces
neither an extra record nor a malformed-line error: the parse succeeds with
a given command list after appending if and only if it did before. -/
theorem parse_trailing_newline :
    parse_cached_commands [] = .ok []
    ∧ ∀ data : List Char, data ≠ [] → data.getLast? ≠ some '\n' →
        splitlines (data ++ ['\n']) = splitlines data
        ∧ ∀ cmds, parse_cached_commands (data ++ ['\n']) = .ok cmds
            ↔ parse_cached_commands data = .ok cmds := by
  refine ⟨rfl, ?_⟩
  intro data h1 h2
  have hs := splitlines_append_newline data h1 h2
  refine ⟨hs, fun cmds => ?_⟩
  unfold parse_cached_commands
  rw [hs, parseCachedLines_ok_iff, parseCachedLines_ok_iff]

/-- Witness for C10 at the concrete cache line `a$b$c$d$e`. -/
theorem parse_trailing_newline_witness :
    splitlines ("a$b$c$d$e".data ++ ['\n']) = splitlines "a$b$c$d$e".data
    ∧ (parse_cached_commands ("a$b$c$d$e".data ++ ['\n'])
          = .ok [⟨"a".data, "b".data, "e".data⟩]
        ↔ parse_cached_commands "a$b$c$d$e".data
          = .ok [⟨"a".data, "b".data, "e".data⟩]) :=
  ⟨(parse_trailing_newline.2 "a$b$c$d$e".data (by decide) (by decide)).1,
   (parse_trailing_newline.2 "a$b$c$d$e".data (by decide) (by decide)).2
     [⟨"a".data, "b".data, "e".data⟩]⟩

/-- Claim C8: the cache file name is the lower-casing of
`shotgun_<platform-name>_<entity-type>_detailed.txt` with the platform
mapped by the spec's platform table (`spec_platform_name`), and the
environment file name is the lower-casing of `shotgun_<entity-type>.yml`. -/
theorem cache_and_env_name_spec (platform entity_type : List Char) :
    get_cache_name platform entity_type
      = lower ("shotgun_".data ++ spec_platform_name platform ++ "_".data
          ++ entity_type ++ "_detailed.txt".data)
    ∧ get_env_name entity_type
      = lower ("shotgun_".data ++ entity_type ++ ".yml".data) := by
  constructor
  · rfl
  · show "shotgun_".data ++ lower entity_type ++ ".yml".data = _
    simp only [lower, List.map_append]
    rw [show List.map Char.toLower "shotgun_".data = "shotgun_".data by decide,
      show List.map Char.toLower ".yml".data = ".yml".data by decide]

/-- Helper: whenever the first read fails with a stale or missing cache
code, the first two invocations are the read followed by the
new-convention rebuild. -/
theorem load_firstFail_take2 (w : World) (k : Nat)
    (platform pc_path entity_type : List Char) (entities : List Entity)
    (rc : Nat) (out : List Char) (hfail : w k = .err rc out)
    (h12 : rc = ERROR_CODE_CACHE_OUT_OF_DATE
      ∨ rc = ERROR_CODE_CACHE_NOT_FOUND) :
    ((load_cached_data w k platform pc_path entity_type
        entities).2.1).take 2
      = [getActionsInv pc_path (get_cache_name platform entity_type)
          (get_env_name entity_type),
         cacheActionsNewInv pc_path entity_type
          (get_cache_name platform entity_type)
          (entities.headD ([], 0)).2] := by
  rcases hw1 : w (k + 1) with o1 | ⟨rc1, o1⟩
  · rcases hw2 : w (k + 2) with o2 | ⟨rc2, o2⟩
    · simp [load_cached_data, hfail, h12, hw1, hw2, loadFinalRead]
    · simp [load_cached_data, hfail, h12, hw1, hw2, loadFinalRead]
  · rcases hw2 : w (k + 2) with o2 | ⟨rc2, o2⟩
    · rcases hw3 : w (k + 3) with o3 | ⟨rc3, o3⟩
      · simp [load_cached_data, hfail, h12, hw1, hw2, hw3, loadFinalRead]
      · simp [load_cached_data, hfail, h12, hw1, hw2, hw3, loadFinalRead]
    · simp [load_cached_data, hfail, h12, hw1, hw2]

/-- Claim C3: during `_load_cached_data`, a `shotgun_cache_actions`
(rebuild) invocation occurs if and only if the first `shotgun_get_actions`
invocation fails with exit code 1 (cache out of date) or 2 (cache not
found).  If the first read succeeds there is no rebuild and the content is
returned; if it fails with any other exit code there is no rebuild, no
further invocation, and the group fails immediately with a `TankError`. -/
theorem load_rebuild_iff (w : World) (k : Nat)
    (platform pc_path entity_type : List Char) (entities : List Entity) :
    ((∃ inv ∈ (load_cached_data w k platform pc_path entity_type
          entities).2.1, inv.command = "shotgun_cache_actions".data)
      ↔ ∃ rc out, w k = .err rc out ∧ (rc = 1 ∨ rc = 2))
    ∧ (∀ out, w k = .ok out →
        (load_cached_data w k platform pc_path entity_type entities).2.1
            = [getActionsInv pc_path (get_cache_name platform entity_type)
                (get_env_name entity_type)]
          ∧ (load_cached_data w k platform pc_path entity_type
              entities).1 = .ok out)
    ∧ (∀ rc out, w k = .err rc out → rc ≠ 1 → rc ≠ 2 →
        (load_cached_data w k platform pc_path entity_type entities).2.1
            = [getActionsInv pc_path (get_cache_name platform entity_type)
                (get_env_name entity_type)]
          ∧ ∃ e, (load_cached_data w k platform pc_path entity_type
              entities).1 = .error e) := by
  have hne : ("shotgun_get_actions".data : List Char)
      ≠ "shotgun_cache_actions".data := by decide
  rcases hwk : w k with out | ⟨rc, out⟩
  · have htr : (load_cached_data w k platform pc_path entity_type
        entities).2.1
        = [getActionsInv pc_path (get_cache_name platform entity_type)
            (get_env_name entity_type)] := by
      simp [load_cached_data, hwk]
    refine ⟨⟨?_, ?_⟩, ?_, ?_⟩
    · rintro ⟨inv, hinv, hcmd⟩
      rw [htr] at hinv
      simp at hinv
      subst hinv
      exact absurd hcmd hne
    · rintro ⟨rc, o, h, _⟩
      simp at h
    · intro out' h
      injection h with h'
      subst h'
      exact ⟨htr, by simp [load_cached_data, hwk]⟩
    · intro rc' out' h
      simp at h
  · by_cases h12 : rc = ERROR_CODE_CACHE_OUT_OF_DATE
      ∨ rc = ERROR_CODE_CACHE_NOT_FOUND
    · have htake := load_firstFail_take2 w k platform pc_path entity_type
        entities rc out hwk h12
      refine ⟨⟨fun _ => ⟨rc, out, rfl, h12⟩, fun _ => ?_⟩, ?_, ?_⟩
      · refine ⟨cacheActionsNewInv pc_path entity_type
          (get_cache_name platform entity_type)
          (entities.headD ([], 0)).2, ?_, rfl⟩
        refine List.take_subset 2 _ ?_
        rw [htake]
        simp
      · intro out' h
        simp at h
      · intro rc' out' h hr1 hr2
        injection h with h1 h2
        subst h1
        rcases h12 with h | h
        · exact absurd h hr1
        · exact absurd h hr2
    · have htr : (load_cached_data w k platform pc_path entity_type
          entities).2.1
          = [getActionsInv pc_path (get_cache_name platform entity_type)
              (get_env_name entity_type)] := by
        simp [load_cached_data, hwk, h12]
      have herr : (load_cached_data w k platform pc_path entity_type
          entities).1
          = .error ⟨"Error while trying to get the cache content.\nDetails: ".data
              ++ subprocessErrStr rc ++ "\nOutput: ".data ++ out⟩ := by
        simp [load_cached_data, hwk, h12]
      have hres : ∃ e, (load_cached_data w k platform pc_path entity_type
          entities).1 = .error e :=
        ⟨_, herr⟩
      refine ⟨⟨?_, ?_⟩, ?_, ?_⟩
      · rintro ⟨inv, hinv, hcmd⟩
        rw [htr] at hinv
        simp at hinv
        subst hinv
        exact absurd hcmd hne
      · rintro ⟨rc', out', h, hor⟩
        injection h with h1 h2
        subst h1
        exact absurd hor h12
      · intro out' h
        simp at h
      · intro rc' out' h hr1 hr2
        injection h with h1 h2
        subst h1
        subst h2
        exact ⟨htr, hres⟩

theorem load_rebuild_iff_witness :
    (load_cached_data c3World 0 "linux2".data "pc".data "Task".data
        [("Task".data, 5)]).2.1
      = [getActionsInv "pc".data (get_cache_name "linux2".data "Task".data)
          (get_env_name "Task".data)]
    ∧ (load_cached_data c3World 0 "linux2".data "pc".data "Task".data
        [("Task".data, 5)]).1 = .ok "x".data :=
  (load_rebuild_iff c3World 0 "linux2".data "pc".data "Task".data
    [("Task".data, 5)]).2.1 "x".data rfl

/-- Claim C4: when the first read fails with exit code 1 or 2, the rebuild
is attempted with the new calling convention first — entity type, cache
file name, and the first group entity's identifier as a string
(`cacheActionsNewInv`); when that invocation succeeds the old convention is
never attempted (the whole trace is read, new rebuild, re-read); the old
convention (entity type and cache file name only) is attempted exactly when
the new one fails; and when both fail the group aborts with a fatal
`TankError` carrying the failing process's output. -/
theorem load_rebuild_convention_order (w : World) (k : Nat)
    (platform pc_path entity_type : List Char) (entities : List Entity)
    (rc : Nat) (out : List Char)
    (hfail : w k = .err rc out) (h12 : rc = 1 ∨ rc = 2) :
    ((load_cached_data w k platform pc_path entity_type
        entities).2.1).take 2
      = [getActionsInv pc_path (get_cache_name platform entity_type)
          (get_env_name entity_type),
         cacheActionsNewInv pc_path entity_type
          (get_cache_name platform entity_type) (entities.headD ([], 0)).2]
    ∧ (∀ o, w (k + 1) = .ok o →
        (load_cached_data w k platform pc_path entity_type entities).2.1
          = [getActionsInv pc_path (get_cache_name platform entity_type)
              (get_env_name entity_type),
             cacheActionsNewInv pc_path entity_type
              (get_cache_name platform entity_type)
              (entities.headD ([], 0)).2,
             getActionsInv pc_path (get_cache_name platform entity_type)
              (get_env_name entity_type)])
    ∧ (∀ rc2 o2, w (k + 1) = .err rc2 o2 →
        ((load_cached_data w k platform pc_path entity_type
            entities).2.1).take 3
          = [getActionsInv pc_path (get_cache_name platform entity_type)
              (get_env_name entity_type),
             cacheActionsNewInv pc_path entity_type
              (get_cache_name platform entity_type)
              (entities.headD ([], 0)).2,
             cacheActionsOldInv pc_path entity_type
              (get_cache_name platform entity_type)])
    ∧ (∀ rc2 o2 rc3 o3, w (k + 1) = .err rc2 o2 → w (k + 2) = .err rc3 o3 →
        (load_cached_data w k platform pc_path entity_type entities).1
            = .error ⟨"Failed to update the cache.\nDetails: ".data
                ++ subprocessErrStr rc3 ++ "\nOutput: ".data ++ o3⟩
          ∧ (load_cached_data w k platform pc_path entity_type
              entities).2.1
            = [getActionsInv pc_path (get_cache_name platform entity_type)
                (get_env_name entity_type),
               cacheActionsNewInv pc_path entity_type
                (get_cache_name platform entity_type)
                (entities.headD ([], 0)).2,
               cacheActionsOldInv pc_path entity_type
                (get_cache_name platform entity_type)]) := by
  have h12' : rc = ERROR_CODE_CACHE_OUT_OF_DATE
      ∨ rc = ERROR_CODE_CACHE_NOT_FOUND := h12
  refine ⟨load_firstFail_take2 w k platform pc_path entity_type entities
    rc out hfail h12', ?_, ?_, ?_⟩
  · intro o hw1
    rcases hw2 : w (k + 2) with o2 | ⟨rc2, o2⟩
    · simp [load_cached_data, hfail, h12', hw1, hw2, loadFinalRead]
    · simp [load_cached_data, hfail, h12', hw1, hw2, loadFinalRead]
  · intro rc2 o2 hw1
    rcases hw2 : w (k + 2) with o2' | ⟨rc2', o2'⟩
    · rcases hw3 : w (k + 3) with o3 | ⟨rc3, o3⟩
      · simp [load_cached_data, hfail, h12', hw1, hw2, hw3, loadFinalRead]
      · simp [load_cached_data, hfail, h12', hw1, hw2, hw3, loadFinalRead]
    · simp [load_cached_data, hfail, h12', hw1, hw2]
  · intro rc2 o2 rc3 o3 hw1 hw2
    simp [load_cached_data, hfail, h12', hw1, hw2]

/-- Witness for C4: first read fails with code 2, the new-convention
rebuild fails, the old-convention rebuild fails with code 9 and output
`"old"`; the group aborts with the error carrying that output, after
exactly the three invocations read, new rebuild, old rebuild. -/
theorem load_rebuild_convention_order_witness :
    (load_cached_data c4World 0 "linux2".data "pc".data "Task".data
        [("Task".data, 5)]).1
      = .error ⟨"Failed to update the cache.\nDetails: ".data
          ++ subprocessErrStr 9 ++ "\nOutput: ".data ++ "old".data⟩
    ∧ (load_cached_data c4World 0 "linux2".data "pc".data "Task".data
        [("Task".data, 5)]).2.1
      = [getActionsInv "pc".data (get_cache_name "linux2".data "Task".data)
          (get_env_name "Task".data),
         cacheActionsNewInv "pc".data "Task".data
          (get_cache_name "linux2".data "Task".data) 5,
         cacheActionsOldInv "pc".data "Task".data
          (get_cache_name "linux2".data "Task".data)] :=
  (load_rebuild_convention_order c4World 0 "linux2".data "pc".data
    "Task".data [("Task".data, 5)] 2 "o".data rfl (Or.inr rfl)).2.2.2
    7 "n".data 9 "old".data rfl rfl

/-! Lemmas about the dictionary model and the assignment replay. -/

theorem dictLookup_dictSet (m : List (Entity × List Command)) (e q : Entity)
    (v : List Command) :
    dictLookup (dictSet m e v) q = if e = q then some v else dictLookup m q := by
  induction m with
  | nil =>
    by_cases h : e = q
    · subst h; simp [dictSet, dictLookup]
    · have h' : ¬ (e = q) := h
      simp [dictSet, dictLookup, h']
  | cons p rest ih =>
    obtain ⟨e0, v0⟩ := p
    by_cases h0 : e0 = e
    · subst h0
      by_cases h : e0 = q
      · subst h; simp [dictSet, dictLookup]
      · simp [dictSet, dictLookup, h]
    · by_cases h : e0 = q
      · subst h
        have h' : ¬ (e = e0) := fun hh => h0 hh.symm
        simp [dictSet, dictLookup, h0, h']
      · simp [dictSet, dictLookup, h0, h, ih]

theorem dictLookup_mem (m : List (Entity × List Command)) (q : Entity)
    (v : List Command) (h : dictLookup m q = some v) : (q, v) ∈ m := by
  induction m with
  | nil => simp [dictLookup] at h
  | cons p rest ih =>
    obtain ⟨e0, v0⟩ := p
    by_cases h0 : e0 = q
    · subst h0
      simp [dictLookup] at h
      simp [h]
    · simp [dictLookup, h0] at h
      simp [ih h]

theorem mem_dictSet (m : List (Entity × List Command)) (e : Entity)
    (v : List Command) : ∀ x ∈ dictSet m e v, x = (e, v) ∨ x ∈ m := by
  induction m with
  | nil => simp [dictSet]
  | cons p rest ih =>
    obtain ⟨e0, v0⟩ := p
    intro x hx
    by_cases h0 : e0 = e
    · subst h0
      simp [dictSet] at hx
      rcases hx with h | h
      · exact Or.inl (by simp [h])
      · exact Or.inr (by simp [h])
    · simp [dictSet, h0] at hx
      rcases hx with h | h
      · exact Or.inr (by simp [h])
      · rcases ih x h with h' | h'
        · exact Or.inl h'
        · exact Or.inr (by simp [h'])

theorem dictLookup_assignGroup (ents : List Entity)
    (m : List (Entity × List Command)) (v : List Command) (q : Entity) :
    dictLookup (assignGroup m ents v) q
      = if q ∈ ents then some v else dictLookup m q := by
  induction ents generalizing m with
  | nil => simp [assignGroup]
  | cons e rest ih =>
    have hstep : assignGroup m (e :: rest) v
        = assignGroup (dictSet m e v) rest v := rfl
    rw [hstep, ih, dictLookup_dictSet]
    by_cases h1 : q ∈ rest
    · simp [h1]
    · by_cases h2 : e = q
      · subst h2; simp [h1]
      · have h3 : ¬ (q = e) := fun hh => h2 hh.symm
        simp [h1, h2, h3]

theorem mem_assignGroup (ents : List Entity)
    (m : List (Entity × List Command)) (v : List Command) :
    ∀ x ∈ assignGroup m ents v, x.2 = v ∨ x ∈ m := by
  induction ents generalizing m with
  | nil =>
    intro x hx
    exact Or.inr (by simpa [assignGroup] using hx)
  | cons e rest ih =>
    intro x hx
    have hstep : assignGroup m (e :: rest) v
        = assignGroup (dictSet m e v) rest v := rfl
    rw [hstep] at hx
    rcases ih (dictSet m e v) x hx with h | h
    · exact Or.inl h
    · rcases mem_dictSet m e v x h with h' | h'
      · exact Or.inl (by simp [h'])
      · exact Or.inr h'

theorem foldl_assignStep_init (q : Entity)
    (outs : List ((List Char × List Entity) × Option (List Command))) :
    ∀ a, outs.foldl (assignStep q) a
      = match outs.foldl (assignStep q) none with
        | some v => some v
        | none => a := by
  induction outs with
  | nil => intro a; simp
  | cons x rest ih =>
    intro a
    rw [List.foldl_cons, List.foldl_cons, ih (assignStep q a x),
      ih (assignStep q none x)]
    cases hr : rest.foldl (assignStep q) none with
    | some v => simp
    | none =>
      simp only
      cases hx : x.2 with
      | none => simp [assignStep, hx]
      | some v =>
        by_cases hq : q ∈ x.1.2
        · simp [assignStep, hx, hq]
        · simp [assignStep, hx, hq]

theorem assignOf_cons (x : (List Char × List Entity) × Option (List Command))
    (outs : List ((List Char × List Entity) × Option (List Command)))
    (q : Entity) :
    assignOf (x :: outs) q
      = match assignOf outs q with
        | some v => some v
        | none => assignStep q none x := by
  simp only [assignOf, List.foldl_cons]
  exact foldl_assignStep_init q outs (assignStep q none x)

theorem assignOf_eq_none (outs : List ((List Char × List Entity)
    × Option (List Command))) (q : Entity)
    (h : ∀ x ∈ outs, q ∉ x.1.2) : assignOf outs q = none := by
  induction outs with
  | nil => rfl
  | cons x rest ih =>
    rw [assignOf_cons, ih (fun y hy => h y (by simp [hy]))]
    cases hx : x.2 with
    | none => simp [assignStep, hx]
    | some v => simp [assignStep, hx, h x (by simp)]

theorem assignOf_unique (outs : List ((List Char × List Entity)
    × Option (List Command))) (q : Entity)
    (htype : ∀ x ∈ outs, ∀ e ∈ x.1.2, e.1 = x.1.1)
    (hnd : (outs.map (fun x => x.1.1)).Nodup) :
    ∀ x ∈ outs, q ∈ x.1.2 → assignOf outs q = x.2 := by
  induction outs with
  | nil => simp
  | cons y rest ih =>
    intro x hx hq
    have hndr : (rest.map (fun x => x.1.1)).Nodup :=
      (List.nodup_cons.mp hnd).2
    have hyk : y.1.1 ∉ rest.map (fun x => x.1.1) :=
      (List.nodup_cons.mp hnd).1
    rcases List.mem_cons.mp hx with h | h
    · subst h
      have hnone : assignOf rest q = none := by
        refine assignOf_eq_none rest q ?_
        intro z hz hqz
        have h1 : q.1 = z.1.1 := htype z (by simp [hz]) q hqz
        have h2 : q.1 = x.1.1 := htype x (by simp) q hq
        exact hyk (by
          rw [show x.1.1 = z.1.1 from h2.symm.trans h1]
          exact List.mem_map.mpr ⟨z, hz, rfl⟩)
      rw [assignOf_cons, hnone]
      cases hx2 : x.2 with
      | none => simp [assignStep, hx2]
      | some v => simp [assignStep, hx2, hq]
    · have hrec := ih (fun z hz => htype z (by simp [hz])) hndr x h hq
      rw [assignOf_cons, hrec]
      cases hx2 : x.2 with
      | some v => simp
      | none =>
        have hqy : q ∉ y.1.2 := by
          intro hqy
          have h1 : q.1 = y.1.1 := htype y (by simp) q hqy
          have h2 : q.1 = x.1.1 := htype x (by simp [h]) q hq
          exact hyk (by
            rw [show y.1.1 = x.1.1 from h1.symm.trans h2]
            exact List.mem_map.mpr ⟨x, h, rfl⟩)
        cases hy2 : y.2 with
        | none => simp [assignStep, hy2]
        | some v => simp [assignStep, hy2, hqy]

theorem assignOf_isSome_iff (outs : List ((List Char × List Entity)
    × Option (List Command))) (q : Entity) :
    assignOf outs q ≠ none
      ↔ ∃ x ∈ outs, q ∈ x.1.2 ∧ x.2.isSome := by
  induction outs with
  | nil => simp [assignOf]
  | cons x rest ih =>
    rw [assignOf_cons]
    cases hr : assignOf rest q with
    | some v =>
      simp only
      constructor
      · intro _
        obtain ⟨z, hz, hq, hs⟩ := ih.mp (by rw [hr]; simp)
        exact ⟨z, by simp [hz], hq, hs⟩
      · intro _
        simp
    | none =>
      simp only
      cases hx : x.2 with
      | none =>
        simp only [assignStep, hx]
        constructor
        · intro h; exact absurd rfl h
        · rintro ⟨z, hz, hq, hs⟩
          rcases List.mem_cons.mp hz with h | h
          · subst h; rw [hx] at hs; simp at hs
          · have : assignOf rest q ≠ none :=
              ih.mpr ⟨z, h, hq, hs⟩
            exact absurd hr this
      | some v =>
        simp only [assignStep, hx]
        by_cases hq : q ∈ x.1.2
        · simp only [if_pos hq]
          constructor
          · intro _
            exact ⟨x, by simp, hq, by simp [hx]⟩
          · intro _
            simp
        · simp only [if_neg hq]
          constructor
          · intro h; exact absurd rfl h
          · rintro ⟨z, hz, hqz, hs⟩
            rcases List.mem_cons.mp hz with h | h
            · subst h; exact absurd hqz hq
            · have : assignOf rest q ≠ none :=
                ih.mpr ⟨z, h, hqz, hs⟩
              exact absurd hr this

/-! Master lemmas relating `runGroups` to the replay functions. -/

theorem runGroups_lookup (w : World) (platform pc_path : List Char) :
    ∀ (gs : List (List Char × List Entity)) (k : Nat)
      (acc : List (Entity × List Command)) (q : Entity),
    dictLookup (runGroups w platform pc_path gs k acc).1 q
      = match assignOf (groupOutcomes w platform pc_path gs k) q with
        | some v => some v
        | none => dictLookup acc q := by
  intro gs
  induction gs with
  | nil =>
    intro k acc q
    simp [runGroups, groupOutcomes, assignOf]
  | cons g rest ih =>
    intro k acc q
    obtain ⟨et, ents⟩ := g
    rcases hL : load_cached_data w k platform pc_path et ents
      with ⟨res, tr, k1⟩
    cases hres : res with
    | ok content =>
      cases hp : parse_cached_commands content with
      | ok cmds =>
        rcases hR : runGroups w platform pc_path rest k1
          (assignGroup acc ents cmds) with ⟨m2, tr2, lg2, k2⟩
        have hrun : (runGroups w platform pc_path
            ((et, ents) :: rest) k acc).1 = m2 := by
          simp [runGroups, hL, hres, hp, hR]
        have houts : groupOutcomes w platform pc_path
            ((et, ents) :: rest) k
            = ((et, ents), some cmds)
              :: groupOutcomes w platform pc_path rest k1 := by
          simp [groupOutcomes, hL, hres, groupOutcome, hp]
        rw [hrun, houts, assignOf_cons]
        have hm2 : dictLookup m2 q
            = match assignOf (groupOutcomes w platform pc_path rest k1) q
              with
              | some v => some v
              | none => dictLookup (assignGroup acc ents cmds) q := by
          rw [← ih k1 (assignGroup acc ents cmds) q, hR]
        rw [hm2, dictLookup_assignGroup]
        cases hA : assignOf (groupOutcomes w platform pc_path rest k1) q
          with
        | some v => simp
        | none =>
          simp only [assignStep]
          by_cases hq : q ∈ ents
          · simp [hq]
          · simp [hq]
      | error e =>
        rcases hR : runGroups w platform pc_path rest k1 acc
          with ⟨m2, tr2, lg2, k2⟩
        have hrun : (runGroups w platform pc_path
            ((et, ents) :: rest) k acc).1 = m2 := by
          simp [runGroups, hL, hres, hp, hR]
        have houts : groupOutcomes w platform pc_path
            ((et, ents) :: rest) k
            = ((et, ents), none)
              :: groupOutcomes w platform pc_path rest k1 := by
          simp [groupOutcomes, hL, hres, groupOutcome, hp]
        rw [hrun, houts, assignOf_cons]
        have hm2 : dictLookup m2 q
            = match assignOf (groupOutcomes w platform pc_path rest k1) q
              with
              | some v => some v
              | none => dictLookup acc q := by
          rw [← ih k1 acc q, hR]
        rw [hm2]
        cases hA : assignOf (groupOutcomes w platform pc_path rest k1) q
          with
        | some v => simp
        | none => simp [assignStep]
    | error e =>
      rcases hR : runGroups w platform pc_path rest k1 acc
        with ⟨m2, tr2, lg2, k2⟩
      have hrun : (runGroups w platform pc_path
          ((et, ents) :: rest) k acc).1 = m2 := by
        simp [runGroups, hL, hres, hR]
      have houts : groupOutcomes w platform pc_path
          ((et, ents) :: rest) k
          = ((et, ents), none)
            :: groupOutcomes w platform pc_path rest k1 := by
        simp [groupOutcomes, hL, hres, groupOutcome]
      rw [hrun, houts, assignOf_cons]
      have hm2 : dictLookup m2 q
          = match assignOf (groupOutcomes w platform pc_path rest k1) q
            with
            | some v => some v
            | none => dictLookup acc q := by
        rw [← ih k1 acc q, hR]
      rw [hm2]
      cases hA : assignOf (groupOutcomes w platform pc_path rest k1) q with
      | some v => simp
      | none => simp [assignStep]

theorem run_lookup_eq_assignOf (w : World) (platform pc_path : List Char)
    (entities : List Entity) (q : Entity) :
    dictLookup (run_noninteractive w platform pc_path entities).1 q
      = assignOf (groupOutcomes w platform pc_path
          (groupRuns entities) 0) q := by
  rw [run_noninteractive, runGroups_lookup]
  cases hA : assignOf (groupOutcomes w platform pc_path
      (groupRuns entities) 0) q with
  | some v => simp
  | none => simp [dictLookup]

theorem runGroups_trace (w : World) (platform pc_path : List Char) :
    ∀ (gs : List (List Char × List Entity)) (k : Nat)
      (acc : List (Entity × List Command)),
    (runGroups w platform pc_path gs k acc).2.1
      = groupTraces w platform pc_path gs k := by
  intro gs
  induction gs with
  | nil => intro k acc; simp [runGroups, groupTraces]
  | cons g rest ih =>
    intro k acc
    obtain ⟨et, ents⟩ := g
    rcases hL : load_cached_data w k platform pc_path et ents
      with ⟨res, tr, k1⟩
    have htr : groupTraces w platform pc_path ((et, ents) :: rest) k
        = tr ++ groupTraces w platform pc_path rest k1 := by
      simp [groupTraces, hL]
    cases hres : res with
    | ok content =>
      cases hp : parse_cached_commands content with
      | ok cmds =>
        rcases hR : runGroups w platform pc_path rest k1
          (assignGroup acc ents cmds) with ⟨m2, tr2, lg2, k2⟩
        have h2 : tr2 = groupTraces w platform pc_path rest k1 := by
          rw [← ih k1 (assignGroup acc ents cmds), hR]
        rw [htr, ← h2]
        simp [runGroups, hL, hres, hp, hR]
      | error e =>
        rcases hR : runGroups w platform pc_path rest k1 acc
          with ⟨m2, tr2, lg2, k2⟩
        have h2 : tr2 = groupTraces w platform pc_path rest k1 := by
          rw [← ih k1 acc, hR]
        rw [htr, ← h2]
        simp [runGroups, hL, hres, hp, hR]
    | error e =>
      rcases hR : runGroups w platform pc_path rest k1 acc
        with ⟨m2, tr2, lg2, k2⟩
      have h2 : tr2 = groupTraces w platform pc_path rest k1 := by
        rw [← ih k1 acc, hR]
      rw [htr, ← h2]
      simp [runGroups, hL, hres, hR]

theorem runGroups_logs_length (w : World) (platform pc_path : List Char) :
    ∀ (gs : List (List Char × List Entity)) (k : Nat)
      (acc : List (Entity × List Command)),
    (runGroups w platform pc_path gs k acc).2.2.1.length
      = (groupOutcomes w platform pc_path gs k).countP
          (fun x => x.2.isNone) := by
  intro gs
  induction gs with
  | nil => intro k acc; simp [runGroups, groupOutcomes]
  | cons g rest ih =>
    intro k acc
    obtain ⟨et, ents⟩ := g
    rcases hL : load_cached_data w k platform pc_path et ents
      with ⟨res, tr, k1⟩
    cases hres : res with
    | ok content =>
      cases hp : parse_cached_commands content with
      | ok cmds =>
        rcases hR : runGroups w platform pc_path rest k1
          (assignGroup acc ents cmds) with ⟨m2, tr2, lg2, k2⟩
        have h2 := ih k1 (assignGroup acc ents cmds)
        rw [hR] at h2
        simp only [runGroups, hL, hres, hp, hR, groupOutcomes,
          groupOutcome, List.countP_cons]
        simp [h2]
      | error e =>
        rcases hR : runGroups w platform pc_path rest k1 acc
          with ⟨m2, tr2, lg2, k2⟩
        have h2 := ih k1 acc
        rw [hR] at h2
        simp only [runGroups, hL, hres, hp, hR, groupOutcomes,
          groupOutcome, List.countP_cons]
        simp [h2]
    | error e =>
      rcases hR : runGroups w platform pc_path rest k1 acc
        with ⟨m2, tr2, lg2, k2⟩
      have h2 := ih k1 acc
      rw [hR] at h2
      simp only [runGroups, hL, hres, hR, groupOutcomes, groupOutcome,
        List.countP_cons]
      simp [h2]

theorem runGroups_values (w : World) (platform pc_path : List Char) :
    ∀ (gs : List (List Char × List Entity)) (k : Nat)
      (acc : List (Entity × List Command)) (x : Entity × List Command),
    x ∈ (runGroups w platform pc_path gs k acc).1 →
      x ∈ acc ∨ some x.2 ∈ (groupOutcomes w platform pc_path gs k).map
        (fun y => y.2) := by
  intro gs
  induction gs with
  | nil =>
    intro k acc x hx
    exact Or.inl (by simpa [runGroups] using hx)
  | cons g rest ih =>
    intro k acc x hx
    obtain ⟨et, ents⟩ := g
    rcases hL : load_cached_data w k platform pc_path et ents
      with ⟨res, tr, k1⟩
    cases hres : res with
    | ok content =>
      cases hp : parse_cached_commands content with
      | ok cmds =>
        rcases hR : runGroups w platform pc_path rest k1
          (assignGroup acc ents cmds) with ⟨m2, tr2, lg2, k2⟩
        have hx2 : x ∈ m2 := by
          have : (runGroups w platform pc_path ((et, ents) :: rest)
              k acc).1 = m2 := by
            simp [runGroups, hL, hres, hp, hR]
          rwa [this] at hx
        have houts : groupOutcomes w platform pc_path
            ((et, ents) :: rest) k
            = ((et, ents), some cmds)
              :: groupOutcomes w platform pc_path rest k1 := by
          simp [groupOutcomes, hL, hres, groupOutcome, hp]
        have := ih k1 (assignGroup acc ents cmds) x (by rw [hR]; exact hx2)
        rcases this with h | h
        · rcases mem_assignGroup ents acc cmds x h with h' | h'
          · rw [houts]
            exact Or.inr (by simp [h'])
          · exact Or.inl h'
        · rw [houts]
          exact Or.inr (by simp; right; simpa using h)
      | error e =>
        rcases hR : runGroups w platform pc_path rest k1 acc
          with ⟨m2, tr2, lg2, k2⟩
        have hx2 : x ∈ m2 := by
          have : (runGroups w platform pc_path ((et, ents) :: rest)
              k acc).1 = m2 := by
            simp [runGroups, hL, hres, hp, hR]
          rwa [this] at hx
        have houts : groupOutcomes w platform pc_path
            ((et, ents) :: rest) k
            = ((et, ents), none)
              :: groupOutcomes w platform pc_path rest k1 := by
          simp [groupOutcomes, hL, hres, groupOutcome, hp]
        rcases ih k1 acc x (by rw [hR]; exact hx2) with h | h
        · exact Or.inl h
        · rw [houts]
          exact Or.inr (by simp; simpa using h)
    | error e =>
      rcases hR : runGroups w platform pc_path rest k1 acc
        with ⟨m2, tr2, lg2, k2⟩
      have hx2 : x ∈ m2 := by
        have : (runGroups w platform pc_path ((et, ents) :: rest)
            k acc).1 = m2 := by
          simp [runGroups, hL, hres, hR]
        rwa [this] at hx
      have houts : groupOutcomes w platform pc_path
          ((et, ents) :: rest) k
          = ((et, ents), none)
            :: groupOutcomes w platform pc_path rest k1 := by
        simp [groupOutcomes, hL, hres, groupOutcome]
      rcases ih k1 acc x (by rw [hR]; exact hx2) with h | h
      · exact Or.inl h
      · rw [houts]
        exact Or.inr (by simp; simpa using h)

theorem groupOutcomes_map_fst (w : World) (platform pc_path : List Char) :
    ∀ (gs : List (List Char × List Entity)) (k : Nat),
    (groupOutcomes w platform pc_path gs k).map (fun x => x.1) = gs := by
  intro gs
  induction gs with
  | nil => intro k; simp [groupOutcomes]
  | cons g rest ih =>
    intro k
    rcases hL : load_cached_data w k platform pc_path g.1 g.2
      with ⟨res, tr, k1⟩
    simp [groupOutcomes, hL, ih k1]

/-! Lemmas about the contiguous-run grouping. -/

theorem groupRuns_flatten (l : List Entity) :
    ((groupRuns l).map Prod.snd).flatten = l := by
  induction l with
  | nil => rfl
  | cons e rest ih =>
    cases h : groupRuns rest with
    | nil =>
      have : rest = [] := by
        rw [← ih, h]
        rfl
      subst this
      simp [groupRuns]
    | cons p tl =>
      obtain ⟨ky, g⟩ := p
      rw [h] at ih
      by_cases he : e.1 = ky
      · simp only [groupRuns, h, if_pos he]
        simp only [List.map_cons, List.flatten] at ih ⊢
        rw [← ih]
        simp
      · simp only [groupRuns, h, if_neg he]
        simp only [List.map_cons, List.flatten] at ih ⊢
        rw [← ih]
        simp

theorem groupRuns_mem_type (l : List Entity) :
    ∀ x ∈ groupRuns l, ∀ e ∈ x.2, e.1 = x.1 := by
  induction l with
  | nil => simp [groupRuns]
  | cons e rest ih =>
    cases h : groupRuns rest with
    | nil =>
      intro x hx e' he'
      simp only [groupRuns, h] at hx
      simp at hx
      subst hx
      simp at he'
      simp [he']
    | cons p tl =>
      obtain ⟨ky, g⟩ := p
      rw [h] at ih
      intro x hx e' he'
      by_cases hk : e.1 = ky
      · simp only [groupRuns, h, if_pos hk] at hx
        rcases List.mem_cons.mp hx with h' | h'
        · subst h'
          simp only at he' ⊢
          rcases List.mem_cons.mp he' with h2 | h2
          · subst h2; exact hk
          · exact ih (ky, g) (by simp) e' h2
        · exact ih x (by simp [h']) e' he'
      · simp only [groupRuns, h, if_neg hk] at hx
        rcases List.mem_cons.mp hx with h' | h'
        · subst h'
          simp only at he'
          rcases List.mem_singleton.mp he' with h2
          subst h2
          rfl
        · exact ih x h' e' he'

theorem groupRuns_nonempty (l : List Entity) :
    ∀ x ∈ groupRuns l, x.2 ≠ [] := by
  induction l with
  | nil => simp [groupRuns]
  | cons e rest ih =>
    cases h : groupRuns rest with
    | nil =>
      intro x hx
      simp only [groupRuns, h] at hx
      simp at hx
      subst hx
      simp
    | cons p tl =>
      obtain ⟨ky, g⟩ := p
      rw [h] at ih
      intro x hx
      by_cases hk : e.1 = ky
      · simp only [groupRuns, h, if_pos hk] at hx
        rcases List.mem_cons.mp hx with h' | h'
        · subst h'; simp
        · exact ih x (by simp [h'])
      · simp only [groupRuns, h, if_neg hk] at hx
        rcases List.mem_cons.mp hx with h' | h'
        · subst h'; simp
        · exact ih x h'

theorem groupRuns_chain (l : List Entity) :
    List.Chain' (fun a b => a.1 ≠ b.1) (groupRuns l) := by
  induction l with
  | nil => simp [groupRuns]
  | cons e rest ih =>
    cases h : groupRuns rest with
    | nil => simp [groupRuns, h]
    | cons p tl =>
      obtain ⟨ky, g⟩ := p
      rw [h] at ih
      by_cases hk : e.1 = ky
      · simp only [groupRuns, h, if_pos hk]
        cases tl with
        | nil => simp
        | cons q tl2 =>
          rw [List.chain'_cons] at ih ⊢
          exact ⟨ih.1, ih.2⟩
      · simp only [groupRuns, h, if_neg hk]
        rw [List.chain'_cons]
        exact ⟨hk, ih⟩

theorem groupRuns_keys_toFinset (l : List Entity) :
    (l.map Prod.fst).toFinset = ((groupRuns l).map Prod.fst).toFinset := by
  induction l with
  | nil => rfl
  | cons e rest ih =>
    cases h : groupRuns rest with
    | nil =>
      have : rest = [] := by
        have hj := groupRuns_flatten rest
        rw [h] at hj
        simpa using hj.symm
      subst this
      simp [groupRuns]
    | cons p tl =>
      obtain ⟨ky, g⟩ := p
      rw [h] at ih
      by_cases hk : e.1 = ky
      · simp only [groupRuns, h, if_pos hk]
        simp only [List.map_cons, List.toFinset_cons] at ih ⊢
        rw [ih, hk]
        simp [Finset.insert_idem]
      · simp only [groupRuns, h, if_neg hk]
        simp only [List.map_cons, List.toFinset_cons] at ih ⊢
        rw [ih]

/-- Helper: the replayed outcomes inherit the typed-membership and
distinct-keys properties of the grouping. -/
theorem outs_type_nodup (w : World) (platform pc_path : List Char)
    (entities : List Entity)
    (hnd : ((groupRuns entities).map Prod.fst).Nodup) :
    (∀ y ∈ groupOutcomes w platform pc_path (groupRuns entities) 0,
        ∀ e ∈ y.1.2, e.1 = y.1.1)
    ∧ ((groupOutcomes w platform pc_path (groupRuns entities) 0).map
        (fun x => x.1.1)).Nodup := by
  have hmapfst := groupOutcomes_map_fst w platform pc_path
    (groupRuns entities) 0
  constructor
  · intro y hy e he
    have hy1 : y.1 ∈ groupRuns entities := by
      rw [← hmapfst]
      exact List.mem_map_of_mem _ hy
    exact groupRuns_mem_type entities y.1 hy1 e he
  · have h2 : ((groupOutcomes w platform pc_path
        (groupRuns entities) 0).map (fun x => x.1)).map Prod.fst
        = (groupRuns entities).map Prod.fst := by
      rw [hmapfst]
    rw [List.map_map] at h2
    have h3 : (groupOutcomes w platform pc_path
        (groupRuns entities) 0).map (fun x => x.1.1)
        = (groupRuns entities).map Prod.fst := by
      rw [← h2]
      rfl
    rw [h3]
    exact hnd

/-- Helper: there are as many replayed outcomes as groups. -/
theorem groupOutcomes_length (w : World) (platform pc_path : List Char)
    (gs : List (List Char × List Entity)) (k : Nat) :
    (groupOutcomes w platform pc_path gs k).length = gs.length := by
  have := congrArg List.length (groupOutcomes_map_fst w platform pc_path gs k)
  simpa using this

/-- Helper: `filterMap` loses nothing on a list of defined options. -/
theorem filterMap_length_of_isSome {α β : Type} (f : α → Option β)
    (l : List α) (h : ∀ x ∈ l, (f x).isSome) :
    (l.filterMap f).length = l.length := by
  induction l with
  | nil => rfl
  | cons x rest ih =>
    cases hx : f x with
    | none =>
      have := h x (by simp)
      rw [hx] at this
      simp at this
    | some v =>
      simp only [List.filterMap_cons, hx, List.length_cons]
      rw [ih (fun y hy => h y (by simp [hy]))]

/-- Claim C5 (amended): in `run_noninteractive`, an error in one
entity-type group is caught and logged, and the remaining groups are still
processed: the run's invocation trace is the concatenation of every group's
own trace, one error message is logged per failed group, and an entity is a
key of the result mapping exactly when it belongs to some group whose load
and parse succeeded, with the value assigned by the last such group
containing it.  (Amendment: an entity of a failed group is absent only if
it belongs to no successful group — an entity occurring both in a failed
run and in a successful run of the same type stays present, as the
counterexample shows.) -/
theorem run_error_isolation (w : World) (platform pc_path : List Char)
    (entities : List Entity) :
    (run_noninteractive w platform pc_path entities).2.1
        = groupTraces w platform pc_path (groupRuns entities) 0
    ∧ (run_noninteractive w platform pc_path entities).2.2.1.length
        = (groupOutcomes w platform pc_path (groupRuns entities) 0).countP
            (fun x => x.2.isNone)
    ∧ (∀ e, dictLookup (run_noninteractive w platform pc_path entities).1 e
        = assignOf (groupOutcomes w platform pc_path
            (groupRuns entities) 0) e)
    ∧ (∀ e, dictLookup (run_noninteractive w platform pc_path
          entities).1 e ≠ none
        ↔ ∃ x ∈ groupOutcomes w platform pc_path (groupRuns entities) 0,
            e ∈ x.1.2 ∧ x.2.isSome) := by
  refine ⟨?_, ?_, ?_, ?_⟩
  · exact runGroups_trace w platform pc_path (groupRuns entities) 0 []
  · exact runGroups_logs_length w platform pc_path (groupRuns entities) 0 []
  · intro e
    exact run_lookup_eq_assignOf w platform pc_path entities e
  · intro e
    rw [run_lookup_eq_assignOf w platform pc_path entities e]
    exact assignOf_isSome_iff
      (groupOutcomes w platform pc_path (groupRuns entities) 0) e

/-- Correction input for C5: with `c5Ents` the type `"T"` occurs in two
runs; the first and second groups succeed, the third group (again type
`"T"`, containing the entity `("T", 1)` that the first run also contains)
fails — yet `("T", 1)` is present in the result mapping, contradicting the
claim that every entity belonging to a failed group is absent. -/
theorem run_failed_group_entity_present :
    (groupOutcomes c5World "p".data "c".data (groupRuns c5Ents) 0).map
        (fun x => x.2.isSome) = [true, true, false]
    ∧ ("T".data, (1 : Int)) ∈ ((groupRuns c5Ents).getD 2 ([], [])).2
    ∧ dictLookup (run_noninteractive c5World "p".data "c".data c5Ents).1
        ("T".data, 1) ≠ none := by
  decide

/-- Witness for C5 at the concrete `c5` instance: one error is logged for
the one failed group. -/
theorem run_error_isolation_witness :
    (run_noninteractive c5World "p".data "c".data c5Ents).2.2.1.length
      = (groupOutcomes c5World "p".data "c".data
          (groupRuns c5Ents) 0).countP (fun x => x.2.isNone) :=
  (run_error_isolation c5World "p".data "c".data c5Ents).2.1

/-- Claim C7 (amended): when entities of equal type occur only in
contiguous runs (the grouping keys are distinct), all entities sharing the
same entity type receive an identical command list in the result mapping.
(Amendment: the contiguity restriction is required — with a scattered type,
each run triggers its own load, and a stateful external process can return
different content to the two runs, as the counterexample shows.) -/
theorem run_same_type_same_commands (w : World)
    (platform pc_path : List Char) (entities : List Entity)
    (hnd : ((groupRuns entities).map Prod.fst).Nodup) :
    ∀ e1 ∈ entities, ∀ e2 ∈ entities, e1.1 = e2.1 →
      dictLookup (run_noninteractive w platform pc_path entities).1 e1
        = dictLookup (run_noninteractive w platform pc_path entities).1
            e2 := by
  intro e1 he1 e2 he2 heq
  have hflat := groupRuns_flatten entities
  have hfind : ∀ e ∈ entities, ∃ g ∈ groupRuns entities, e ∈ g.2 := by
    intro e he
    rw [← hflat] at he
    rcases List.mem_flatten.mp he with ⟨l, hl, hel⟩
    rcases List.mem_map.mp hl with ⟨g, hg, hgl⟩
    exact ⟨g, hg, by rw [hgl]; exact hel⟩
  obtain ⟨g1, hg1, hm1⟩ := hfind e1 he1
  obtain ⟨g2, hg2, hm2⟩ := hfind e2 he2
  have hk1 : e1.1 = g1.1 := groupRuns_mem_type entities g1 hg1 e1 hm1
  have hk2 : e2.1 = g2.1 := groupRuns_mem_type entities g2 hg2 e2 hm2
  have hgeq : g1 = g2 :=
    List.inj_on_of_nodup_map hnd hg1 hg2 (by rw [← hk1, ← hk2, heq])
  subst hgeq
  obtain ⟨htype, hnd'⟩ := outs_type_nodup w platform pc_path entities hnd
  have hmapfst := groupOutcomes_map_fst w platform pc_path
    (groupRuns entities) 0
  have hx : ∃ x ∈ groupOutcomes w platform pc_path (groupRuns entities) 0,
      x.1 = g1 := by
    rw [← hmapfst] at hg1
    rcases List.mem_map.mp hg1 with ⟨x, hx, hx1⟩
    exact ⟨x, hx, hx1⟩
  obtain ⟨x, hxmem, hx1⟩ := hx
  have ha1 : assignOf (groupOutcomes w platform pc_path
      (groupRuns entities) 0) e1 = x.2 :=
    assignOf_unique _ e1 htype hnd' x hxmem (by rw [hx1]; exact hm1)
  have ha2 : assignOf (groupOutcomes w platform pc_path
      (groupRuns entities) 0) e2 = x.2 :=
    assignOf_unique _ e2 htype hnd' x hxmem (by rw [hx1]; exact hm2)
  rw [run_lookup_eq_assignOf, run_lookup_eq_assignOf, ha1, ha2]

/-- Correction input for C7: with the scattered list `c7Ents` and the
stateful world `c7World`, both `("T", 1)` and `("T", 3)` get commands, but
the two `"T"` runs read different cache content, so the two entities of the
same type receive different command lists. -/
theorem run_scattered_type_differs :
    ("T".data, (1 : Int)) ∈ c7Ents
    ∧ ("T".data, (3 : Int)) ∈ c7Ents
    ∧ (dictLookup (run_noninteractive c7World "p".data "c".data
        c7Ents).1 ("T".data, 1)).isSome
    ∧ (dictLookup (run_noninteractive c7World "p".data "c".data
        c7Ents).1 ("T".data, 3)).isSome
    ∧ dictLookup (run_noninteractive c7World "p".data "c".data c7Ents).1
        ("T".data, 1)
      ≠ dictLookup (run_noninteractive c7World "p".data "c".data
          c7Ents).1 ("T".data, 3) := by
  decide

/-- Witness for C7 at a contiguous instance: the two `"T"` entities get the
same command list. -/
theorem run_same_type_same_commands_witness :
    dictLookup (run_noninteractive c7WitWorld "p".data "c".data
        c7WitEnts).1 ("T".data, 1)
      = dictLookup (run_noninteractive c7WitWorld "p".data "c".data
          c7WitEnts).1 ("T".data, 2) :=
  run_same_type_same_commands c7WitWorld "p".data "c".data c7WitEnts
    (by decide) ("T".data, 1) (by decide) ("T".data, 2) (by decide) rfl

/-- Claim C6 (amended): for an entity list whose equal types are contiguous
(K groups with distinct keys) and in which no group fails, grouping
coalesces exactly the contiguous runs (flattening the groups reproduces the
input in order, adjacent groups have distinct types, and the number of
distinct entity types equals K); every entity receives its group's parsed
command list; and the result mapping holds at most K distinct command-list
values by content, with exactly K when the K parsed lists are pairwise
distinct.  (Amendment: the original "exactly K" fails when two types'
caches hold identical content, as the counterexample shows.) -/
theorem run_distinct_values (w : World) (platform pc_path : List Char)
    (entities : List Entity)
    (hnd : ((groupRuns entities).map Prod.fst).Nodup)
    (hok : ∀ x ∈ groupOutcomes w platform pc_path (groupRuns entities) 0,
      x.2.isSome) :
    ((groupRuns entities).map Prod.snd).flatten = entities
    ∧ List.Chain' (fun a b => a.1 ≠ b.1) (groupRuns entities)
    ∧ (entities.map Prod.fst).toFinset.card = (groupRuns entities).length
    ∧ (∀ x ∈ groupOutcomes w platform pc_path (groupRuns entities) 0,
        ∀ cmds, x.2 = some cmds → ∀ e ∈ x.1.2,
          dictLookup (run_noninteractive w platform pc_path entities).1 e
            = some cmds)
    ∧ ((run_noninteractive w platform pc_path entities).1.map
        Prod.snd).dedup.length ≤ (groupRuns entities).length
    ∧ (((groupOutcomes w platform pc_path (groupRuns entities) 0).filterMap
          (fun y => y.2)).Nodup →
        ((run_noninteractive w platform pc_path entities).1.map
          Prod.snd).dedup.length = (groupRuns entities).length) := by
  obtain ⟨htype, hnd'⟩ := outs_type_nodup w platform pc_path entities hnd
  have hmapfst := groupOutcomes_map_fst w platform pc_path
    (groupRuns entities) 0
  have hlen := groupOutcomes_length w platform pc_path
    (groupRuns entities) 0
  have hfan : ∀ x ∈ groupOutcomes w platform pc_path
      (groupRuns entities) 0, ∀ cmds, x.2 = some cmds → ∀ e ∈ x.1.2,
      dictLookup (run_noninteractive w platform pc_path entities).1 e
        = some cmds := by
    intro x hx cmds hc e he
    rw [run_lookup_eq_assignOf,
      assignOf_unique _ e htype hnd' x hx he, hc]
  have hsub : ∀ v ∈ (run_noninteractive w platform pc_path
      entities).1.map Prod.snd,
      v ∈ (groupOutcomes w platform pc_path
        (groupRuns entities) 0).filterMap (fun y => y.2) := by
    intro v hv
    rcases List.mem_map.mp hv with ⟨x, hx, hvx⟩
    rcases runGroups_values w platform pc_path (groupRuns entities) 0 [] x
      hx with h | h
    · simp at h
    · rcases List.mem_map.mp h with ⟨y, hy, hy2⟩
      exact List.mem_filterMap.mpr ⟨y, hy, by rw [hy2, hvx]⟩
  have hsubF : ((run_noninteractive w platform pc_path entities).1.map
      Prod.snd).toFinset
      ⊆ ((groupOutcomes w platform pc_path (groupRuns entities) 0).filterMap
          (fun y => y.2)).toFinset := by
    intro a ha
    rw [List.mem_toFinset] at ha ⊢
    exact hsub a ha
  have hFlen : ((groupOutcomes w platform pc_path
      (groupRuns entities) 0).filterMap (fun y => y.2)).length
      = (groupRuns entities).length := by
    rw [filterMap_length_of_isSome _ _ hok, hlen]
  refine ⟨groupRuns_flatten entities, groupRuns_chain entities, ?_,
    hfan, ?_, ?_⟩
  · rw [groupRuns_keys_toFinset,
      List.toFinset_card_of_nodup hnd, List.length_map]
  · calc ((run_noninteractive w platform pc_path entities).1.map
        Prod.snd).dedup.length
        = ((run_noninteractive w platform pc_path entities).1.map
            Prod.snd).toFinset.card := (List.card_toFinset _).symm
      _ ≤ ((groupOutcomes w platform pc_path
            (groupRuns entities) 0).filterMap
            (fun y => y.2)).toFinset.card := Finset.card_le_card hsubF
      _ ≤ ((groupOutcomes w platform pc_path
            (groupRuns entities) 0).filterMap (fun y => y.2)).length :=
          List.toFinset_card_le _
      _ = (groupRuns entities).length := hFlen
  · intro hdn
    have hsup : ∀ v ∈ (groupOutcomes w platform pc_path
        (groupRuns entities) 0).filterMap (fun y => y.2),
        v ∈ (run_noninteractive w platform pc_path entities).1.map
          Prod.snd := by
      intro v hv
      rcases List.mem_filterMap.mp hv with ⟨y, hy, hy2⟩
      have hy1 : y.1 ∈ groupRuns entities := by
        rw [← hmapfst]
        exact List.mem_map_of_mem _ hy
      have hne := groupRuns_nonempty entities y.1 hy1
      cases hl : y.1.2 with
      | nil => exact absurd hl hne
      | cons e0 es =>
        have he0 : e0 ∈ y.1.2 := by rw [hl]; simp
        have := hfan y hy v hy2 e0 he0
        have hmem := dictLookup_mem _ _ _ this
        exact List.mem_map.mpr ⟨(e0, v), hmem, rfl⟩
    have hsupF : ((groupOutcomes w platform pc_path
        (groupRuns entities) 0).filterMap (fun y => y.2)).toFinset
        ⊆ ((run_noninteractive w platform pc_path entities).1.map
            Prod.snd).toFinset := by
      intro a ha
      rw [List.mem_toFinset] at ha ⊢
      exact hsup a ha
    have hFeq : ((run_noninteractive w platform pc_path entities).1.map
        Prod.snd).toFinset
        = ((groupOutcomes w platform pc_path
            (groupRuns entities) 0).filterMap (fun y => y.2)).toFinset :=
      Finset.Subset.antisymm hsubF hsupF
    rw [← List.card_toFinset, hFeq, List.toFinset_card_of_nodup hdn, hFlen]

/-- Correction input for C6: two entity types whose caches return identical
content; no group fails, yet the mapping holds one distinct command-list
value, not two. -/
theorem run_distinct_values_cex :
    (c6Ents.map Prod.fst).toFinset.card = 2
    ∧ (∀ x ∈ groupOutcomes c6World "p".data "c".data (groupRuns c6Ents) 0,
        x.2.isSome)
    ∧ ((run_noninteractive c6World "p".data "c".data c6Ents).1.map
        Prod.snd).dedup.length = 1 := by
  decide

/-- Witness for C6 at an instance with two types and distinct cache
contents: exactly as many distinct command lists as groups. -/
theorem run_distinct_values_witness :
    ((run_noninteractive c6WitWorld "p".data "c".data c6Ents).1.map
        Prod.snd).dedup.length = (groupRuns c6Ents).length :=
  (run_distinct_values c6WitWorld "p".data "c".data c6Ents (by decide)
    (by decide)).2.2.2.2.2 (by decide)

/-! The filesystem hook. -/

theorem fsLookup_fsSet (fs : FS) (q p : List Char) (f : FileRec) :
    fsLookup (fsSet fs q f) p = if q = p then some f else fsLookup fs p := by
  induction fs with
  | nil => simp [fsSet, fsLookup]
  | cons entry rest ih =>
    obtain ⟨p0, f0⟩ := entry
    by_cases h0 : p0 = q
    · subst h0
      by_cases h : p0 = p
      · subst h; simp [fsSet, fsLookup]
      · simp [fsSet, fsLookup, h]
    · by_cases h : p0 = p
      · subst h
        have h' : ¬ (q = p0) := fun hh => h0 hh.symm
        simp [fsSet, fsLookup, h0, h']
      · simp [fsSet, fsLookup, h0, h, ih]

/-- Claim C9: `MaxPubPublishFile.execute(source_path, target_path)` copies
the file at the source path to the target path and then sets the target's
permissions to read-only mode `0444`: whenever it succeeds, the target
holds the source's content with mode `0444`, every path other than the
target is untouched, and the source (necessarily distinct from the target,
since copying a file onto itself fails) is unchanged. -/
theorem max_publish_file_execute_spec (fs : FS) (src tgt : List Char)
    (fs' : FS) (f : FileRec)
    (hrun : maxPubPublishFileExecute fs src tgt = some fs')
    (hsrc : fsLookup fs src = some f) :
    fsLookup fs' tgt = some ⟨f.content, 0o444⟩
    ∧ (∀ p, p ≠ tgt → fsLookup fs' p = fsLookup fs p)
    ∧ src ≠ tgt
    ∧ fsLookup fs' src = fsLookup fs src := by
  by_cases hst : src = tgt
  · rw [show maxPubPublishFileExecute fs src tgt = none from by
      simp [maxPubPublishFileExecute, shutilCopy, hst]] at hrun
    exact absurd hrun (by simp)
  · have hcopy : shutilCopy fs src tgt = some (fsSet fs tgt f) := by
      simp [shutilCopy, hst, hsrc]
    have hlook : fsLookup (fsSet fs tgt f) tgt = some f := by
      rw [fsLookup_fsSet]
      simp
    have hchmod : osChmod (fsSet fs tgt f) tgt 0o444
        = some (fsSet (fsSet fs tgt f) tgt ⟨f.content, 0o444⟩) := by
      simp [osChmod, hlook]
    have hrun' : maxPubPublishFileExecute fs src tgt
        = some (fsSet (fsSet fs tgt f) tgt ⟨f.content, 0o444⟩) := by
      simp [maxPubPublishFileExecute, hcopy, hchmod]
    rw [hrun'] at hrun
    have hfs' : fs' = fsSet (fsSet fs tgt f) tgt ⟨f.content, 0o444⟩ := by
      injection hrun with h
      exact h.symm
    subst hfs'
    have hother : ∀ p, p ≠ tgt →
        fsLookup (fsSet (fsSet fs tgt f) tgt ⟨f.content, 0o444⟩) p
          = fsLookup fs p := by
      intro p hp
      have h' : ¬ (tgt = p) := fun hh => hp hh.symm
      rw [fsLookup_fsSet, fsLookup_fsSet]
      simp [h']
    refine ⟨?_, hother, hst, hother src hst⟩
    rw [fsLookup_fsSet]
    simp

/-- Witness for C9 at a one-file filesystem: after `execute("a", "b")`,
file `b` holds `a`'s content read-only and `a` is unchanged. -/
theorem max_publish_file_execute_witness :
    fsLookup c9FS1 "b".data = some ⟨"hi".data, 0o444⟩
    ∧ fsLookup c9FS1 "a".data = fsLookup c9FS "a".data := by
  have h := max_publish_file_execute_spec c9FS "a".data "b".data c9FS1
    ⟨"hi".data, 0o644⟩ (by decide) (by decide)
  exact ⟨h.1, h.2.2.2⟩

end TkCore
